import Mathlib

/-!
Verification development for the H3 grid spatial-autocorrelation engine
of the gaode-map repository.

The Python modules `modules/grid_h3/analysis.py`, `modules/grid_h3/core.py`
and `host_bridge/runner.py` are shallowly embedded below.  Python floats are
modelled as rationals (`ℚ`), Python `None` as `Option`, dictionaries as
association lists or functions, and calls into external libraries (h3,
shapely, esda) as explicit function parameters whose contracts appear as
theorem hypotheses.
-/

namespace GridH3

/-! ### Benjamini-Hochberg FDR mask (`_build_fdr_mask`, analysis.py lines 255-272) -/

/-- Embedding of the `valid` list of `_build_fdr_mask`: the `(index, p)` pairs
for which the p-value is present.  (In the Python source a finiteness check
also runs; every rational is finite, so it is omitted.) -/
def fdrValid (pValues : List (Option ℚ)) : List (ℕ × ℚ) :=
  pValues.enum.filterMap fun ip => ip.2.map fun p => (ip.1, p)

/-- Comparison key used by `sorted(valid, key=lambda item: item[1])`. -/
def fdrLE (a b : ℕ × ℚ) : Bool := a.2 ≤ b.2

/-- Embedding of the `cutoff_rank` loop of `_build_fdr_mask`: walk the ranked
list with 1-based rank, remembering the last rank whose p-value is at most
`alpha * rank / m`. -/
def fdrCutoffAux (alpha : ℚ) (m : ℕ) : List (ℕ × ℚ) → ℕ → ℕ → ℕ
  | [], _, acc => acc
  | x :: rest, rank, acc =>
    fdrCutoffAux alpha m rest (rank + 1) (if x.2 ≤ alpha * rank / m then rank else acc)

/-- Embedding of `ranked = sorted(valid, key=lambda item: item[1])`: Python's
sort is a stable merge sort on the p-value key. -/
def fdrRanked (pValues : List (Option ℚ)) : List (ℕ × ℚ) :=
  (fdrValid pValues).mergeSort fdrLE

/-- The `cutoff_rank` value computed by the loop of `_build_fdr_mask`, with
`m = len(valid)`. -/
def fdrCutoff (pValues : List (Option ℚ)) (alpha : ℚ) : ℕ :=
  fdrCutoffAux alpha (fdrValid pValues).length (fdrRanked pValues) 1 0

/-- Embedding of `_build_fdr_mask` (analysis.py lines 255-272).  The returned
mask has one Boolean per input p-value; position `idx` is `true` exactly when
`idx` occurs among the original indices of the first `cutoff_rank` entries of
the ranked list (the Python code initialises the mask to all-`False` and sets
exactly those positions). -/
def buildFdrMask (pValues : List (Option ℚ)) (alpha : ℚ) : List Bool :=
  if (fdrValid pValues).length = 0 then List.replicate pValues.length false
  else
    (List.range pValues.length).map fun idx =>
      decide (idx ∈ ((fdrRanked pValues).take (fdrCutoff pValues alpha)).map Prod.fst)

/-- Embedding of the raw threshold masks `lisa_sig_raw` / `gi_sig_raw`
(analysis.py lines 471 and 509): `p is not None and p < alpha`. -/
def rawSignificanceMask (pValues : List (Option ℚ)) (alpha : ℚ) : List Bool :=
  pValues.map fun pv => match pv with
    | none => false
    | some p => decide (p < alpha)

/-! ### Global Moran's I (`compute_global_moran_i`, analysis.py lines 224-252) -/

/-- Embedding of `_safe_round(value, 6)` on a present, finite value.  Python
uses banker's rounding while Mathlib `round` rounds half away from zero; the
two agree except at exact half-ulp ties, and all uses below are tie-free. -/
def round6 (q : ℚ) : ℚ := (round (q * 1000000) : ℚ) / 1000000

/-- Embedding of the per-cell neighbor enumeration of `compute_global_moran_i`
(line 244): grid-native neighbors restricted to the working set, excluding the
cell itself.  The grid-native lookup `_neighbors(cid, ring)` (h3 `grid_disk`)
is the external parameter `neighbors`. -/
def moranNeighborsOf {Cell : Type} [DecidableEq Cell] (cellIds : List Cell)
    (neighbors : Cell → List Cell) (c : Cell) : List Cell :=
  (neighbors c).filter fun d => decide (d ∈ cellIds) && decide (d ≠ c)

/-- The `mean_value` of `compute_global_moran_i` (line 235). -/
def moranMean {Cell : Type} (cellIds : List Cell) (value : Cell → ℚ) : ℚ :=
  (cellIds.map value).sum / cellIds.length

/-- The `denominator` of `compute_global_moran_i` (line 236). -/
def moranDen {Cell : Type} (cellIds : List Cell) (value : Cell → ℚ) : ℚ :=
  (cellIds.map fun c => (value c - moranMean cellIds value) ^ 2).sum

/-- The `numerator` accumulated by the double loop of `compute_global_moran_i`
(lines 240-247). -/
def moranNum {Cell : Type} [DecidableEq Cell] (cellIds : List Cell)
    (value : Cell → ℚ) (neighbors : Cell → List Cell) : ℚ :=
  (cellIds.map fun c =>
    ((moranNeighborsOf cellIds neighbors c).map fun d =>
      (value c - moranMean cellIds value) * (value d - moranMean cellIds value)).sum).sum

/-- The `s0` edge count accumulated by the double loop (each direction counted
once). -/
def moranS0 {Cell : Type} [DecidableEq Cell] (cellIds : List Cell)
    (neighbors : Cell → List Cell) : ℕ :=
  (cellIds.map fun c => (moranNeighborsOf cellIds neighbors c).length).sum

/-- Embedding of `compute_global_moran_i` (analysis.py lines 224-252) over the
working set `cellIds` (the keys of `stats_by_cell`) with per-cell statistic
`value` (the `value_key` column, absent values already defaulted to 0).
Python's `denominator <= 0` and `s0 <= 0` tests are kept (the latter is `= 0`
on ℕ). -/
def computeGlobalMoranI {Cell : Type} [DecidableEq Cell] (cellIds : List Cell)
    (value : Cell → ℚ) (neighbors : Cell → List Cell) : Option ℚ :=
  if cellIds.length < 2 then none
  else if moranDen cellIds value ≤ 0 then none
  else if moranS0 cellIds neighbors = 0 then none
  else some (round6 ((cellIds.length : ℚ) / (moranS0 cellIds neighbors : ℚ) *
    (moranNum cellIds value neighbors / moranDen cellIds value)))

/-! ### C1: the two-cell worked example -/

/-- C1: for the two-cell working set where each cell is the other's sole
neighbor (each direction counted once, so S0 = 2) and the density values are
2 and 4, `compute_global_moran_i` returns exactly -1.0. -/
theorem two_cell_moran_i_eq_neg_one :
    computeGlobalMoranI [0, 1]
      (fun c => if c = 0 then 2 else 4)
      (fun c => if c = 0 then [1] else [0]) = some (-1) := by
  norm_num [computeGlobalMoranI, moranNeighborsOf, moranMean, moranDen, moranNum,
    moranS0, round6, round_eq]

/-! ### C3: FDR mask versus the raw threshold mask -/

/-- Membership in the `valid` index/p-value list corresponds exactly to a
present p-value at that index of the input list. -/
theorem mem_fdrValid_iff {pValues : List (Option ℚ)} {i : ℕ} {p : ℚ} :
    (i, p) ∈ fdrValid pValues ↔ pValues[i]? = some (some p) := by
  simp only [fdrValid, List.mem_filterMap]
  constructor
  · rintro ⟨⟨j, q⟩, hmem, hf⟩
    cases q with
    | none => simp at hf
    | some qq =>
      simp only [Option.map_some', Option.some.injEq, Prod.mk.injEq] at hf
      obtain ⟨rfl, rfl⟩ := hf
      exact List.mem_enum_iff_getElem?.1 hmem
  · intro h
    exact ⟨(i, some p), List.mem_enum_iff_getElem?.2 h, rfl⟩

/-- Specification of the `cutoff_rank` loop: the result is either the initial
accumulator or of the form `rank + j` for a position `j` of the list whose
p-value meets the Benjamini-Hochberg bound at 1-based rank `rank + j`. -/
theorem fdrCutoffAux_spec (alpha : ℚ) (m : ℕ) (l : List (ℕ × ℚ)) :
    ∀ rank acc : ℕ,
      fdrCutoffAux alpha m l rank acc = acc ∨
      ∃ j x, j < l.length ∧ l[j]? = some x ∧
        fdrCutoffAux alpha m l rank acc = rank + j ∧
        x.2 ≤ alpha * (rank + j) / m := by
  induction l with
  | nil => intro rank acc; left; rfl
  | cons x rest ih =>
    intro rank acc
    rw [fdrCutoffAux]
    rcases ih (rank + 1) (if x.2 ≤ alpha * rank / m then rank else acc) with
      h | ⟨j, y, hj, hy, hres, hle⟩
    · by_cases hc : x.2 ≤ alpha * rank / m
      · right
        refine ⟨0, x, by simp, by simp, ?_, ?_⟩
        · rw [h, if_pos hc]; omega
        · simpa using hc
      · left
        rw [h, if_neg hc]
    · right
      refine ⟨j + 1, y, by simpa using Nat.succ_lt_succ hj, by simpa using hy, ?_, ?_⟩
      · rw [hres]; omega
      · convert hle using 3
        push_cast
        ring

/-- The ranked list is a permutation of the valid list. -/
theorem fdrRanked_perm (pValues : List (Option ℚ)) :
    (fdrRanked pValues).Perm (fdrValid pValues) :=
  List.mergeSort_perm _ _

/-- The ranked list is sorted by ascending p-value. -/
theorem fdrRanked_sorted (pValues : List (Option ℚ)) :
    List.Pairwise (fun a b : ℕ × ℚ => a.2 ≤ b.2) (fdrRanked pValues) := by
  have h := List.sorted_mergeSort
    (fun a b c (hab : fdrLE a b = true) (hbc : fdrLE b c = true) => by
      simp only [fdrLE, decide_eq_true_iff] at *
      exact le_trans hab hbc)
    (fun a b => by simp only [fdrLE, Bool.or_eq_true, decide_eq_true_iff]; exact le_total _ _)
    (fdrValid pValues)
  exact h.imp (fun hab => by simpa [fdrLE, decide_eq_true_iff] using hab)

/-- Core estimate behind the FDR subset property: every index retained by the
Benjamini-Hochberg mask carries a present p-value that is at most `alpha`
(non-strict), provided `alpha` is nonnegative. -/
theorem fdr_mask_le_alpha (pValues : List (Option ℚ)) (alpha : ℚ)
    (halpha : 0 ≤ alpha) (i : ℕ)
    (h : (buildFdrMask pValues alpha).getD i false = true) :
    ∃ p : ℚ, pValues[i]? = some (some p) ∧ p ≤ alpha := by
  rw [buildFdrMask] at h
  by_cases hm : (fdrValid pValues).length = 0
  · rw [if_pos hm] at h
    simp [List.getD_eq_getElem?_getD, List.getElem?_replicate] at h
    split at h <;> simp_all
  · rw [if_neg hm] at h
    rw [List.getD_eq_getElem?_getD, List.getElem?_map] at h
    by_cases hi : i < pValues.length
    · rw [List.getElem?_range hi] at h
      simp only [Option.map_some', Option.getD_some, decide_eq_true_iff] at h
      obtain ⟨pr, hprmem, hpr1⟩ := List.mem_map.1 h
      obtain ⟨j, hjget⟩ := List.mem_iff_getElem?.1 hprmem
      obtain ⟨hjlt, hjval⟩ := List.getElem?_eq_some.1 hjget
      rw [List.length_take] at hjlt
      have hjc : j < fdrCutoff pValues alpha := lt_of_lt_of_le hjlt (min_le_left _ _)
      have hjr : j < (fdrRanked pValues).length :=
        lt_of_lt_of_le hjlt (min_le_right _ _)
      have hrj : (fdrRanked pValues)[j]? = some pr := by
        rw [← List.getElem?_take_of_lt hjc]
        exact hjget
      have hlen : (fdrRanked pValues).length = (fdrValid pValues).length :=
        (fdrRanked_perm pValues).length_eq
      rcases fdrCutoffAux_spec alpha (fdrValid pValues).length (fdrRanked pValues) 1 0 with
        hz | ⟨j0, x0, hj0, hx0, hcut, hble⟩
      · rw [show fdrCutoffAux alpha (fdrValid pValues).length (fdrRanked pValues) 1 0 =
            fdrCutoff pValues alpha from rfl] at hz
        omega
      · rw [show fdrCutoffAux alpha (fdrValid pValues).length (fdrRanked pValues) 1 0 =
            fdrCutoff pValues alpha from rfl] at hcut
        have hjj0 : j ≤ j0 := by omega
        have hx0val : (fdrRanked pValues)[j0] = x0 := (List.getElem?_eq_some.1 hx0).2
        have hprval : (fdrRanked pValues)[j] = pr := (List.getElem?_eq_some.1 hrj).2
        have hp2 : pr.2 ≤ x0.2 := by
          rcases lt_or_eq_of_le hjj0 with hlt | heq
          · have hs := List.pairwise_iff_get.1 (fdrRanked_sorted pValues)
              ⟨j, hjr⟩ ⟨j0, hj0⟩ hlt
            simpa [List.get_eq_getElem, hprval, hx0val] using hs
          · subst heq
            rw [← hprval, hx0val]
        have hm0 : 0 < (fdrValid pValues).length := Nat.pos_of_ne_zero hm
        have hmq : (0:ℚ) < ((fdrValid pValues).length : ℚ) := by exact_mod_cast hm0
        have hcm : ((1:ℕ) : ℚ) + (j0 : ℚ) ≤ ((fdrValid pValues).length : ℚ) := by
          have hnat : 1 + j0 ≤ (fdrValid pValues).length := by omega
          exact_mod_cast hnat
        have hbound :
            alpha * (((1:ℕ):ℚ) + (j0:ℚ)) / ((fdrValid pValues).length : ℚ) ≤ alpha := by
          rw [div_le_iff₀ hmq]
          exact mul_le_mul_of_nonneg_left hcm halpha
        have hmem2 : pr ∈ fdrValid pValues :=
          (fdrRanked_perm pValues).mem_iff.1 (hprval ▸ List.getElem_mem hjr)
        have hpv : pValues[pr.1]? = some (some pr.2) :=
          mem_fdrValid_iff.1 (by simpa using hmem2)
        exact ⟨pr.2, hpr1 ▸ hpv, le_trans hp2 (le_trans hble hbound)⟩
    · have hnone : (List.range pValues.length)[i]? = none :=
        List.getElem?_eq_none (by simpa using le_of_not_lt hi)
      rw [hnone] at h
      simp at h

/-- Raw threshold mask with the strict comparison relaxed to non-strict:
`p is not None and p <= alpha`.  This is the comparison set of the amended
C3 statement; it is not a function of the Python source but the smallest
relaxation of `rawSignificanceMask` that the counterexample forces. -/
def rawNonstrictMask (pValues : List (Option ℚ)) (alpha : ℚ) : List Bool :=
  pValues.map fun pv => match pv with
    | none => false
    | some p => decide (p ≤ alpha)

/-- C3 counterexample: the claim as stated is false.  With a single eligible
p-value equal to `alpha` (here both 1/20), the Benjamini-Hochberg rule keeps
the cell (`p(1) ≤ alpha·1/1` holds with equality) while the raw threshold
test `p < alpha` rejects it, so the FDR-significant set is not a subset of
the raw-threshold significant set. -/
theorem fdr_subset_claim_counterexample :
    ¬ (∀ (alpha : ℚ) (pValues : List (Option ℚ)) (i : ℕ),
        (buildFdrMask pValues alpha).getD i false = true →
        (rawSignificanceMask pValues alpha).getD i false = true) := by
  intro hclaim
  have h0 := hclaim (1/20) [some (1/20)] 0 (by
    simp [buildFdrMask, fdrRanked, fdrValid, fdrLE, fdrCutoff, fdrCutoffAux])
  simp [rawSignificanceMask] at h0

/-- C3 (amended): for every nonnegative alpha and every assignment of
p-values, the set of cells marked significant by the Benjamini-Hochberg FDR
mask is a subset of the set of cells whose p-value is present and at most
alpha (non-strict threshold).  The original strict-threshold comparison fails
exactly when a retained p-value equals its Benjamini-Hochberg bound. -/
theorem fdr_subset_nonstrict (pValues : List (Option ℚ)) (alpha : ℚ)
    (halpha : 0 ≤ alpha) (i : ℕ)
    (h : (buildFdrMask pValues alpha).getD i false = true) :
    (rawNonstrictMask pValues alpha).getD i false = true := by
  obtain ⟨p, hp, hple⟩ := fdr_mask_le_alpha pValues alpha halpha i h
  rw [rawNonstrictMask, List.getD_eq_getElem?_getD, List.getElem?_map, hp]
  simpa using hple

/-- Witness for the amended C3 theorem: at alpha = 1/20 with the single
p-value 1/20, the hypotheses hold and the conclusion is obtained by applying
the theorem. -/
theorem fdr_subset_nonstrict_witness :
    (0:ℚ) ≤ 1/20 ∧
    (buildFdrMask [some (1/20)] (1/20)).getD 0 false = true ∧
    (rawNonstrictMask [some (1/20)] (1/20)).getD 0 false = true := by
  have hmask : (buildFdrMask [some (1/20)] (1/20)).getD 0 false = true := by
    simp [buildFdrMask, fdrRanked, fdrValid, fdrLE, fdrCutoff, fdrCutoffAux]
  exact ⟨by norm_num, hmask, fdr_subset_nonstrict [some (1/20)] (1/20) (by norm_num) 0 hmask⟩

/-! ### Spatial weights (`_build_pysal_weights`, analysis.py lines 275-302) -/

/-- Embedding of the per-cell filtered neighbor set of `_build_pysal_weights`
(line 289): `sorted({nid for nid in raw_neighbors if nid in cell_set and
nid != cid})`.  The raw grid-native lookup is the parameter `neighbors`. -/
def weightsNeighborsOf {Cell : Type} [LinearOrder Cell] (cellIds : List Cell)
    (neighbors : Cell → List Cell) (c : Cell) : List Cell :=
  (((neighbors c).filter fun d => decide (d ∈ cellIds) && decide (d ≠ c)).dedup).mergeSort
    fun a b => decide (a ≤ b)

/-- The `neighbors_map` dictionary of `_build_pysal_weights`, keyed in working
set order. -/
def weightsNeighborsMap {Cell : Type} [LinearOrder Cell] (cellIds : List Cell)
    (neighbors : Cell → List Cell) : List (Cell × List Cell) :=
  cellIds.map fun c => (c, weightsNeighborsOf cellIds neighbors c)

/-- Embedding of `_build_pysal_weights` (analysis.py lines 275-302): `none`
models the `(None, [])` returns (fewer than two cells, or no edges at all);
otherwise the neighbor map is returned and the id order is its key list.  The
construction of the external `libpysal` `W` object preserves the map, and its
`id_order` is the key list, so both are represented by the map itself. -/
def buildPysalWeights {Cell : Type} [LinearOrder Cell] (cellIds : List Cell)
    (neighbors : Cell → List Cell) : Option (List (Cell × List Cell)) :=
  if cellIds.length < 2 then none
  else if ((weightsNeighborsMap cellIds neighbors).map fun p => p.2.length).sum = 0 then none
  else some (weightsNeighborsMap cellIds neighbors)

/-! ### Local significance (`compute_local_spatial_significance`,
analysis.py lines 372-554) -/

/-- Per-cell result record initialised at lines 382-397 of analysis.py.
String labels keep their Python spellings. -/
structure LocalCellResult where
  lisaI : Option ℚ
  lisaZScore : Option ℚ
  lisaPValue : Option ℚ
  lisaSignificant : Bool
  lisaCluster : String
  giStarValue : Option ℚ
  giStarZScore : Option ℚ
  giStarPValue : Option ℚ
  giStarSignificant : Bool
  giHotspotType : String
  isSignificant : Bool
  deriving DecidableEq, Repr

/-- The initial (and degenerate-path) per-cell record: everything absent, not
significant, cluster `NS`, hotspot label `ns`. -/
def defaultLocalResult : LocalCellResult :=
  { lisaI := none, lisaZScore := none, lisaPValue := none, lisaSignificant := false,
    lisaCluster := "NS", giStarValue := none, giStarZScore := none, giStarPValue := none,
    giStarSignificant := false, giHotspotType := "ns", isSignificant := false }

/-- The `counts` summary dictionary of `compute_local_spatial_significance`. -/
structure LocalCounts where
  significantCellCount : ℕ
  hotspotCellCount : ℕ
  coldspotCellCount : ℕ
  deriving DecidableEq, Repr

/-- The `mean_value` of line 419: `sum(values) / len(values)`. -/
def localValuesMean (values : List ℚ) : ℚ := values.sum / values.length

/-- The zero-variance guard of line 420:
`all(abs(v - mean_value) < 1e-12 for v in values)`. -/
def localZeroVariance (values : List ℚ) : Bool :=
  values.all fun v => |v - localValuesMean values| < 1 / 10 ^ 12

/-- Embedding of `compute_local_spatial_significance` (analysis.py lines
372-554) up to its degenerate-input guards.  The body after the guards (lines
423-554) invokes the external `esda` estimators `Moran_Local` and `G_Local`;
it is abstracted as the parameter `localTail`, over which every theorem below
quantifies universally.  The guards return the all-default record map and
zero counts: weights construction failed, fewer than two values, or zero
variance. -/
def computeLocalSpatialSignificance {Cell : Type} [LinearOrder Cell]
    (cellIds : List Cell) (value : Cell → ℚ) (neighbors : Cell → List Cell)
    (localTail : List Cell → (Cell → LocalCellResult) × LocalCounts) :
    (Cell → LocalCellResult) × LocalCounts :=
  match buildPysalWeights cellIds neighbors with
  | none => (fun _ => defaultLocalResult, ⟨0, 0, 0⟩)
  | some weights =>
    let idOrder := weights.map Prod.fst
    let values := idOrder.map value
    if values.length < 2 then (fun _ => defaultLocalResult, ⟨0, 0, 0⟩)
    else if localZeroVariance values then (fun _ => defaultLocalResult, ⟨0, 0, 0⟩)
    else localTail idOrder

/-! ### C2: identical values give an undefined global statistic and
no significant local cells -/

/-- With all values equal to `k`, the Moran mean is `k` on a nonempty working
set. -/
theorem moranMean_const {Cell : Type} (cellIds : List Cell) (value : Cell → ℚ)
    (k : ℚ) (hne : cellIds ≠ []) (hconst : ∀ c ∈ cellIds, value c = k) :
    moranMean cellIds value = k := by
  rw [moranMean, List.sum_eq_card_nsmul (cellIds.map value) k]
  · rw [List.length_map, nsmul_eq_mul]
    have h0 : (cellIds.length : ℚ) ≠ 0 := by
      simpa using List.length_pos.2 hne |>.ne'
    field_simp
  · intro x hx
    obtain ⟨c, hc, rfl⟩ := List.mem_map.1 hx
    exact hconst c hc

/-- With all values equal, the Moran denominator vanishes. -/
theorem moranDen_const {Cell : Type} (cellIds : List Cell) (value : Cell → ℚ)
    (k : ℚ) (hne : cellIds ≠ []) (hconst : ∀ c ∈ cellIds, value c = k) :
    moranDen cellIds value = 0 := by
  rw [moranDen]
  apply List.sum_eq_zero
  intro x hx
  obtain ⟨c, hc, rfl⟩ := List.mem_map.1 hx
  rw [moranMean_const cellIds value k hne hconst, hconst c hc]
  ring

/-- C2: for every working set whose cells all carry the identical statistic
value, `compute_global_moran_i` returns the explicit absent value `None`, and
`compute_local_spatial_significance` leaves every cell at the default record:
LISA cluster `NS`, hotspot label `ns`, all significance flags `False` (and
zero summary counts) — regardless of how the post-guard `esda` computation
(`localTail`) would behave. -/
theorem const_values_moran_none_and_local_ns {Cell : Type} [LinearOrder Cell]
    (cellIds : List Cell) (value : Cell → ℚ) (neighbors : Cell → List Cell)
    (localTail : List Cell → (Cell → LocalCellResult) × LocalCounts) (k : ℚ)
    (hconst : ∀ c ∈ cellIds, value c = k) :
    computeGlobalMoranI cellIds value neighbors = none ∧
    (∀ c : Cell,
      ((computeLocalSpatialSignificance cellIds value neighbors localTail).1 c).lisaCluster
          = "NS" ∧
      ((computeLocalSpatialSignificance cellIds value neighbors localTail).1 c).giHotspotType
          = "ns" ∧
      ((computeLocalSpatialSignificance cellIds value neighbors localTail).1 c).lisaSignificant
          = false ∧
      ((computeLocalSpatialSignificance cellIds value neighbors localTail).1 c).giStarSignificant
          = false ∧
      ((computeLocalSpatialSignificance cellIds value neighbors localTail).1 c).isSignificant
          = false) ∧
    (computeLocalSpatialSignificance cellIds value neighbors localTail).2 = ⟨0, 0, 0⟩ := by
  have hlocal :
      computeLocalSpatialSignificance cellIds value neighbors localTail =
        (fun _ => defaultLocalResult, (⟨0, 0, 0⟩ : LocalCounts)) := by
    rw [computeLocalSpatialSignificance]
    by_cases hlen : cellIds.length < 2
    · rw [buildPysalWeights, if_pos hlen]
    · rw [buildPysalWeights, if_neg hlen]
      by_cases hsum :
          ((weightsNeighborsMap cellIds neighbors).map fun p => p.2.length).sum = 0
      · rw [if_pos hsum]
      · rw [if_neg hsum]
        simp only []
        have hne : cellIds ≠ [] := by
          intro h
          rw [h] at hlen
          exact hlen (by simp)
        have hkeys : (weightsNeighborsMap cellIds neighbors).map Prod.fst = cellIds := by
          simp [weightsNeighborsMap, Function.comp_def]
        rw [hkeys]
        have hvlen : (cellIds.map value).length = cellIds.length := List.length_map _ _
        rw [if_neg (by omega : ¬ (cellIds.map value).length < 2)]
        have hzero : localZeroVariance (cellIds.map value) = true := by
          rw [localZeroVariance, List.all_eq_true]
          intro v hv
          obtain ⟨c, hc, rfl⟩ := List.mem_map.1 hv
          have hmean : localValuesMean (cellIds.map value) = k := by
            rw [localValuesMean, List.sum_eq_card_nsmul (cellIds.map value) k]
            · rw [List.length_map, nsmul_eq_mul]
              have h0 : (cellIds.length : ℚ) ≠ 0 := by
                simpa using List.length_pos.2 hne |>.ne'
              field_simp
            · intro x hx
              obtain ⟨d, hd, rfl⟩ := List.mem_map.1 hx
              exact hconst d hd
          rw [hmean, hconst c hc]
          norm_num
        rw [if_pos hzero]
  refine ⟨?_, ?_, ?_⟩
  · by_cases hlen : cellIds.length < 2
    · rw [computeGlobalMoranI, if_pos hlen]
    · have hne : cellIds ≠ [] := by
        intro h
        rw [h] at hlen
        exact hlen (by simp)
      rw [computeGlobalMoranI, if_neg hlen,
        if_pos (le_of_eq (moranDen_const cellIds value k hne hconst))]
  · intro c
    rw [hlocal]
    exact ⟨rfl, rfl, rfl, rfl, rfl⟩
  · rw [hlocal]

/-- Witness for C2: two cells, both with value 5, mutually adjacent. -/
theorem const_values_moran_none_and_local_ns_witness :
    (∀ c ∈ [0, 1], (fun _ : ℕ => (5:ℚ)) c = 5) ∧
    computeGlobalMoranI [0, 1] (fun _ => (5:ℚ))
      (fun c => if c = 0 then [1] else [0]) = none := by
  refine ⟨by simp, ?_⟩
  exact (const_values_moran_none_and_local_ns [0, 1] (fun _ => (5:ℚ))
    (fun c => if c = 0 then [1] else [0])
    (fun _ => (fun _ => defaultLocalResult, ⟨0, 0, 0⟩)) 5 (by simp)).1

/-! ### C6: the neighbor graph never contains a self-loop -/

/-- C6: for every working set and ring size k in 1..3, a cell's id is never a
member of its own neighbor set, in either the weights construction
(`_build_pysal_weights`, line 289) or the global Moran neighbor enumeration
(`compute_global_moran_i`, line 244); both filter on `nid != cid`. -/
theorem neighbor_graph_no_self_loops {Cell : Type} [LinearOrder Cell]
    (cellIds : List Cell) (rawNeighbors : Cell → ℕ → List Cell) (k : ℕ)
    (hk1 : 1 ≤ k) (hk3 : k ≤ 3) (c : Cell) :
    c ∉ weightsNeighborsOf cellIds (fun d => rawNeighbors d k) c ∧
    c ∉ moranNeighborsOf cellIds (fun d => rawNeighbors d k) c := by
  constructor
  · intro hmem
    rw [weightsNeighborsOf] at hmem
    have hmem2 := (List.mergeSort_perm _ _).mem_iff.1 hmem
    have hmem3 := List.mem_dedup.1 hmem2
    obtain ⟨-, hfilt⟩ := List.mem_filter.1 hmem3
    simp at hfilt
  · intro hmem
    rw [moranNeighborsOf] at hmem
    obtain ⟨-, hfilt⟩ := List.mem_filter.1 hmem
    simp at hfilt

/-- Witness for C6 at ring size 1, a two-cell working set and a raw neighbor
lookup that (unlike h3) even returns the cell itself: the filters still drop
the self-loop. -/
theorem neighbor_graph_no_self_loops_witness :
    (1 ≤ 1 ∧ 1 ≤ 3) ∧
    (0 ∉ weightsNeighborsOf [0, 1] (fun _ => [0, 1]) 0 ∧
     0 ∉ moranNeighborsOf [0, 1] (fun _ => [0, 1]) 0) :=
  ⟨⟨le_refl 1, by norm_num⟩,
    neighbor_graph_no_self_loops [0, 1] (fun _ _ => [0, 1]) 1 (le_refl 1) (by norm_num) 0⟩

/-! ### C10: summary count invariants of the local-statistics loop
(analysis.py lines 512-554) -/

/-- Per-cell inputs consumed by the summary loop of
`compute_local_spatial_significance` (lines 512-538): the LISA and Getis-Ord
significance flags (after optional FDR) and the rounded Gi* z-score. -/
structure LocalSigInput where
  lisaSignificant : Bool
  giSignificant : Bool
  giStarZScore : Option ℚ
  deriving DecidableEq, Repr

/-- Embedding of the hotspot classification at lines 525-530: `hotspot` when
significant with positive z, `coldspot` when significant with negative z,
otherwise `ns`. -/
def giHotspotTypeOf (giSignificant : Bool) (giStarZScore : Option ℚ) : String :=
  match giStarZScore with
  | some z =>
    if giSignificant = true ∧ 0 < z then "hotspot"
    else if giSignificant = true ∧ z < 0 then "coldspot"
    else "ns"
  | none => "ns"

/-- Embedding of `is_significant = bool(lisa_significant or gi_significant)`
(line 532). -/
def localIsSignificant (row : LocalSigInput) : Bool :=
  row.lisaSignificant || row.giSignificant

/-- One iteration of the counting at lines 533-538. -/
def tallyStep (acc : LocalCounts) (row : LocalSigInput) : LocalCounts :=
  { significantCellCount := acc.significantCellCount +
      (if localIsSignificant row = true then 1 else 0),
    hotspotCellCount := acc.hotspotCellCount +
      (if giHotspotTypeOf row.giSignificant row.giStarZScore = "hotspot" then 1 else 0),
    coldspotCellCount := acc.coldspotCellCount +
      (if giHotspotTypeOf row.giSignificant row.giStarZScore = "coldspot" then 1 else 0) }

/-- The summary counts accumulated over the working set (lines 512-538). -/
def tallyLocalCounts (rows : List LocalSigInput) : LocalCounts :=
  rows.foldl tallyStep ⟨0, 0, 0⟩

/-- A hotspot or coldspot label implies the Getis-Ord significance flag. -/
theorem giHotspotTypeOf_sig {g : Bool} {z : Option ℚ}
    (h : giHotspotTypeOf g z = "hotspot" ∨ giHotspotTypeOf g z = "coldspot") :
    g = true := by
  cases z with
  | none => rcases h with h | h <;> simp [giHotspotTypeOf] at h
  | some z =>
    rw [giHotspotTypeOf] at h
    split_ifs at h with h1 h2
    · exact h1.1
    · exact h2.1
    · rcases h with h | h <;> exact absurd h (by decide)

/-- The hotspot and coldspot labels are mutually exclusive. -/
theorem giHotspotTypeOf_not_both {g : Bool} {z : Option ℚ} :
    ¬(giHotspotTypeOf g z = "hotspot" ∧ giHotspotTypeOf g z = "coldspot") := by
  rintro ⟨h1, h2⟩
  exact absurd (h1.symm.trans h2) (by decide)

/-- Unfolding of the counting fold into `countP` values. -/
theorem tallyLocalCounts_foldl (rows : List LocalSigInput) : ∀ acc : LocalCounts,
    rows.foldl tallyStep acc =
      ⟨acc.significantCellCount + rows.countP (fun r => localIsSignificant r),
       acc.hotspotCellCount + rows.countP
         (fun r => decide (giHotspotTypeOf r.giSignificant r.giStarZScore = "hotspot")),
       acc.coldspotCellCount + rows.countP
         (fun r => decide (giHotspotTypeOf r.giSignificant r.giStarZScore = "coldspot"))⟩ := by
  induction rows with
  | nil => intro acc; simp [List.countP_nil]
  | cons r t ih =>
    intro acc
    rw [List.foldl_cons, ih]
    simp only [List.countP_cons, tallyStep, LocalCounts.mk.injEq]
    refine ⟨?_, ?_, ?_⟩ <;> split_ifs <;> first | omega | simp_all

/-- Sum of the hotspot and coldspot counts is bounded by the significant
count, element by element. -/
theorem countP_hot_cold_le_sig (rows : List LocalSigInput) :
    rows.countP
        (fun r => decide (giHotspotTypeOf r.giSignificant r.giStarZScore = "hotspot")) +
      rows.countP
        (fun r => decide (giHotspotTypeOf r.giSignificant r.giStarZScore = "coldspot")) ≤
      rows.countP (fun r => localIsSignificant r) := by
  induction rows with
  | nil => simp
  | cons r t ih =>
    simp only [List.countP_cons]
    have hhot : giHotspotTypeOf r.giSignificant r.giStarZScore = "hotspot" →
        localIsSignificant r = true := fun h => by
      simp [localIsSignificant, giHotspotTypeOf_sig (Or.inl h)]
    have hcold : giHotspotTypeOf r.giSignificant r.giStarZScore = "coldspot" →
        localIsSignificant r = true := fun h => by
      simp [localIsSignificant, giHotspotTypeOf_sig (Or.inr h)]
    have hboth := @giHotspotTypeOf_not_both r.giSignificant r.giStarZScore
    split_ifs <;> simp_all <;> omega

/-- C10: in the summary counts of the local-statistics loop, hotspot and
coldspot labels are mutually exclusive per cell, every hotspot or coldspot
cell is counted significant, hence hotspot + coldspot counts never exceed the
significant count, and every count is bounded by the working-set size. -/
theorem local_summary_count_invariants (rows : List LocalSigInput) :
    (∀ row ∈ rows,
      ¬(giHotspotTypeOf row.giSignificant row.giStarZScore = "hotspot" ∧
        giHotspotTypeOf row.giSignificant row.giStarZScore = "coldspot") ∧
      ((giHotspotTypeOf row.giSignificant row.giStarZScore = "hotspot" ∨
        giHotspotTypeOf row.giSignificant row.giStarZScore = "coldspot") →
        localIsSignificant row = true)) ∧
    (tallyLocalCounts rows).hotspotCellCount + (tallyLocalCounts rows).coldspotCellCount ≤
      (tallyLocalCounts rows).significantCellCount ∧
    (tallyLocalCounts rows).significantCellCount ≤ rows.length ∧
    (tallyLocalCounts rows).hotspotCellCount ≤ rows.length ∧
    (tallyLocalCounts rows).coldspotCellCount ≤ rows.length := by
  have htally := tallyLocalCounts_foldl rows ⟨0, 0, 0⟩
  rw [tallyLocalCounts] at *
  refine ⟨?_, ?_, ?_, ?_, ?_⟩
  · intro row _
    exact ⟨giHotspotTypeOf_not_both, fun h => by
      simp [localIsSignificant, giHotspotTypeOf_sig h]⟩
  · rw [htally]
    simpa using countP_hot_cold_le_sig rows
  · rw [htally]
    simpa using List.countP_le_length _
  · rw [htally]
    simpa using List.countP_le_length _
  · rw [htally]
    simpa using List.countP_le_length _

/-! ### C4: point aggregation (`aggregate_pois_to_h3`, analysis.py lines 120-166) -/

/-- One iteration of the aggregation loop (lines 142-164).  Resolving an
observation to a cell — location parsing, the gcj02→wgs84 conversion and the
`_latlng_to_cell` lookup — is external (coordinate math and the h3 library);
its composite is the parameter `resolve`, returning `none` on any of the skip
paths (malformed location, conversion failure, no cell).  An observation
whose resolved cell is outside the working set is silently dropped; otherwise
the cell's `poi_count` and the running `assigned_poi_count` are incremented.
The category-histogram update (lines 161-164) does not affect the counts and
is omitted. -/
def aggregateStep {Cell Poi : Type} [DecidableEq Cell] (gridIds : List Cell)
    (resolve : Poi → Option Cell) (acc : (Cell → ℕ) × ℕ) (p : Poi) : (Cell → ℕ) × ℕ :=
  match resolve p with
  | none => acc
  | some cid =>
    if cid ∈ gridIds then (Function.update acc.1 cid (acc.1 cid + 1), acc.2 + 1)
    else acc

/-- Embedding of `aggregate_pois_to_h3` (analysis.py lines 120-166), reduced
to the per-cell `poi_count` map (all cells start at 0) and the returned
`assigned_poi_count`. -/
def aggregatePoisToH3 {Cell Poi : Type} [DecidableEq Cell] (gridIds : List Cell)
    (pois : List Poi) (resolve : Poi → Option Cell) : (Cell → ℕ) × ℕ :=
  pois.foldl (aggregateStep gridIds resolve) (fun _ => 0, 0)

/-- Predicate: the observation resolves to some cell of the working set. -/
def resolvesIntoGrid {Cell Poi : Type} [DecidableEq Cell] (gridIds : List Cell)
    (resolve : Poi → Option Cell) (p : Poi) : Bool :=
  match resolve p with
  | none => false
  | some cid => decide (cid ∈ gridIds)

/-- Loop invariant of the aggregation fold: the per-cell sum over the working
set and the assigned count both advance by the number of observations that
resolve into the grid. -/
theorem aggregate_foldl_invariant {Cell Poi : Type} [DecidableEq Cell]
    (gridIds : List Cell) (resolve : Poi → Option Cell) (pois : List Poi) :
    ∀ acc : (Cell → ℕ) × ℕ,
      (∑ c ∈ gridIds.toFinset, (pois.foldl (aggregateStep gridIds resolve) acc).1 c) =
        (∑ c ∈ gridIds.toFinset, acc.1 c) +
          pois.countP (resolvesIntoGrid gridIds resolve) ∧
      (pois.foldl (aggregateStep gridIds resolve) acc).2 =
        acc.2 + pois.countP (resolvesIntoGrid gridIds resolve) := by
  induction pois with
  | nil => intro acc; simp [List.countP_nil]
  | cons p t ih =>
    intro acc
    rw [List.foldl_cons, List.countP_cons]
    obtain ⟨ih1, ih2⟩ := ih (aggregateStep gridIds resolve acc p)
    cases hres : resolve p with
    | none =>
      have hstep : aggregateStep gridIds resolve acc p = acc := by
        simp [aggregateStep, hres]
      have hcp : resolvesIntoGrid gridIds resolve p = false := by
        simp [resolvesIntoGrid, hres]
      exact ⟨by rw [ih1, hstep, hcp]; simp, by rw [ih2, hstep, hcp]; simp⟩
    | some cid =>
      by_cases hin : cid ∈ gridIds
      · have hstep : aggregateStep gridIds resolve acc p =
            (Function.update acc.1 cid (acc.1 cid + 1), acc.2 + 1) := by
          simp [aggregateStep, hres, hin]
        have hcp : resolvesIntoGrid gridIds resolve p = true := by
          simp [resolvesIntoGrid, hres, hin]
        have hmem : cid ∈ gridIds.toFinset := List.mem_toFinset.2 hin
        have hsum : (∑ c ∈ gridIds.toFinset, Function.update acc.1 cid (acc.1 cid + 1) c)
            = (∑ c ∈ gridIds.toFinset, acc.1 c) + 1 := by
          rw [Finset.sum_update_of_mem hmem,
            Finset.sum_eq_sum_diff_singleton_add hmem acc.1]
          ring
        constructor
        · rw [ih1, hstep]
          simp only [hcp, if_true]
          rw [hsum]
          omega
        · rw [ih2, hstep]
          simp only [hcp, if_true]
          omega
      · have hstep : aggregateStep gridIds resolve acc p = acc := by
          simp [aggregateStep, hres, hin]
        have hcp : resolvesIntoGrid gridIds resolve p = false := by
          simp [resolvesIntoGrid, hres, hin]
        exact ⟨by rw [ih1, hstep, hcp]; simp, by rw [ih2, hstep, hcp]; simp⟩

/-- C4: for every working set and observation list, the sum over the working
set of the per-cell `poi_count` equals the assigned count, the assigned count
is at most the number of input observations, and equality holds exactly when
every observation resolves to some cell of the working set (observations
outside the working set are silently dropped, not an error). -/
theorem aggregate_counts_conservation {Cell Poi : Type} [DecidableEq Cell]
    (gridIds : List Cell) (pois : List Poi) (resolve : Poi → Option Cell) :
    (∑ c ∈ gridIds.toFinset, (aggregatePoisToH3 gridIds pois resolve).1 c) =
      (aggregatePoisToH3 gridIds pois resolve).2 ∧
    (aggregatePoisToH3 gridIds pois resolve).2 ≤ pois.length ∧
    ((aggregatePoisToH3 gridIds pois resolve).2 = pois.length ↔
      ∀ p ∈ pois, ∃ cid, resolve p = some cid ∧ cid ∈ gridIds) := by
  obtain ⟨h1, h2⟩ := aggregate_foldl_invariant gridIds resolve pois (fun _ => 0, 0)
  rw [aggregatePoisToH3]
  refine ⟨?_, ?_, ?_⟩
  · rw [h1, h2]
    simp
  · rw [h2]
    simpa using List.countP_le_length _
  · rw [h2]
    simp only [Nat.zero_add]
    rw [List.countP_eq_length]
    constructor
    · intro hall p hp
      have hmem := hall p hp
      cases hres : resolve p with
      | none => simp [resolvesIntoGrid, hres] at hmem
      | some cid =>
        refine ⟨cid, rfl, ?_⟩
        simpa [resolvesIntoGrid, hres] using hmem
    · intro hall p hp
      obtain ⟨cid, hres, hin⟩ := hall p hp
      simp [resolvesIntoGrid, hres, hin]

/-! ### Grid builder (`modules/grid_h3/core.py`) -/

/-- Inclusion policy of the grid builder (`include_mode`). -/
inductive IncludeMode where
  | intersects
  | inside
  deriving DecidableEq, Repr

/-- `_ensure_closed_ring` (core.py lines 12-17): append the first point when
the ring is not already closed. -/
def ensureClosedRing (coords : List (ℚ × ℚ)) : List (ℚ × ℚ) :=
  match coords with
  | [] => []
  | c :: rest =>
    if (c :: rest).getLast? = some c then c :: rest
    else (c :: rest) ++ [c]

/-- External geometry operations used by core.py: shapely polygon
construction, emptiness, zero-buffer normalization (`_normalize_polygon`),
the gcj02→wgs84 coordinate conversion of `_convert_polygon_coords`, envelope,
the h3 polyfill (`geo_to_cells`), grid disks, per-cell boundary polygons
(`get_hexagon_boundary` + ring closing + normalization, `none` when the
boundary has fewer than 3 points or normalizes to empty), and the `covers`,
`intersects`, `area` and `intersection(..).area` predicates. -/
structure GeoOracle (Cell Poly : Type) where
  emptyPoly : Poly
  isEmptyPoly : Poly → Bool
  mkPoly : List (ℚ × ℚ) → Poly
  normalizePoly : Poly → Poly
  convertPoly : Poly → Poly
  envelopePoly : Poly → Poly
  polyfill : Poly → ℕ → List Cell
  gridDisk : Cell → ℕ → List Cell
  cellPoly : Cell → Option Poly
  covers : Poly → Poly → Bool
  intersectsPoly : Poly → Poly → Bool
  areaPoly : Poly → ℚ
  interArea : Poly → Poly → ℚ

/-- `_coords_to_polygon` (core.py lines 47-60): skip malformed points (a
malformed point arrives as `none`; float parsing is external), close the
ring, return the empty polygon when the closed ring has fewer than 4 points,
otherwise normalize the constructed polygon. -/
def coordsToPolygon {Cell Poly : Type} (G : GeoOracle Cell Poly)
    (pts : List (Option (ℚ × ℚ))) : Poly :=
  if (ensureClosedRing (pts.filterMap id)).length < 4 then G.emptyPoly
  else G.normalizePoly (G.mkPoly (ensureClosedRing (pts.filterMap id)))

/-- `polygon_to_hexagons` (core.py lines 63-117) as invoked by the grid
builder, always with `coord_type="wgs84"` so the gcj02 conversion branch is
not taken: empty polygons yield no cells, otherwise normalize and delegate
to the h3 polyfill. -/
def polygonToHexagons {Cell Poly : Type} (G : GeoOracle Cell Poly)
    (p : Poly) (res : ℕ) : List Cell :=
  if G.isEmptyPoly p then []
  else if G.isEmptyPoly (G.normalizePoly p) then []
  else G.polyfill (G.normalizePoly p) res

/-- `_expand_hexagons_with_neighbors` (core.py lines 185-198): the input set
united with every member's grid disk; Python sets are modelled as lists up
to deduplication. -/
def expandHexagonsWithNeighbors {Cell Poly : Type} [DecidableEq Cell]
    (G : GeoOracle Cell Poly) (hexes : List Cell) (ringSize : ℕ) : List Cell :=
  if ringSize = 0 then hexes.dedup
  else (hexes.dedup ++ hexes.dedup.flatMap fun h => G.gridDisk h ringSize).dedup

/-- The acceptance test of `hexagons_to_geojson_features` (core.py lines
227-240): under `inside`, the source must cover the cell; under
`intersects`, the source must intersect the cell and the intersection-over-
cell-area quotient (0 when the cell area is not positive) must reach the
minimum overlap. -/
def keepCell {Cell Poly : Type} (G : GeoOracle Cell Poly) (source : Poly)
    (includeMode : IncludeMode) (minOverlap : ℚ) (cp : Poly) : Bool :=
  match includeMode with
  | .inside => G.covers source cp
  | .intersects =>
    G.intersectsPoly source cp &&
      decide (minOverlap ≤
        (if 0 < G.areaPoly cp then G.interArea source cp / G.areaPoly cp else 0))

/-- `sorted(set(hexagons))` of core.py line 217. -/
def sortedDedup {Cell : Type} [LinearOrder Cell] (hexes : List Cell) : List Cell :=
  hexes.dedup.mergeSort fun a b => decide (a ≤ b)

/-- `hexagons_to_geojson_features` (core.py lines 201-265) reduced to the
list of kept cell ids (one feature per kept cell; the feature payload's
other properties do not influence the count): iterate `sorted(set(...))`,
resolve each cell polygon, and keep per the inclusion policy. -/
def hexagonsToFeatureCells {Cell Poly : Type} [LinearOrder Cell]
    (G : GeoOracle Cell Poly) (hexes : List Cell) (source : Poly)
    (includeMode : IncludeMode) (minOverlap : ℚ) : List Cell :=
  if G.isEmptyPoly (G.normalizePoly source) then []
  else
    (sortedDedup hexes).filter fun h =>
      match G.cellPoly h with
      | none => false
      | some cp => keepCell G (G.normalizePoly source) includeMode minOverlap cp

/-- `source_polygon_wgs84` of `build_h3_grid_feature_collection` (core.py
lines 282-285). -/
def gridSourcePolygon {Cell Poly : Type} (G : GeoOracle Cell Poly)
    (pts : List (Option (ℚ × ℚ))) (coordIsGcj : Bool) : Poly :=
  if coordIsGcj then G.normalizePoly (G.convertPoly (coordsToPolygon G pts))
  else coordsToPolygon G pts

/-- The candidate polygon of lines 291-298: for `intersects` the normalized
envelope (falling back to the source when the envelope normalizes to empty),
otherwise the source itself. -/
def gridCandidatePolygon {Cell Poly : Type} (G : GeoOracle Cell Poly)
    (source : Poly) (mode : IncludeMode) : Poly :=
  if mode = .intersects then
    if G.isEmptyPoly (G.normalizePoly (G.envelopePoly source)) then source
    else G.normalizePoly (G.envelopePoly source)
  else source

/-- The hexagon set of lines 300-304: polyfill of the candidate polygon,
expanded by one neighbor ring under `intersects`. -/
def gridHexagons {Cell Poly : Type} [DecidableEq Cell] (G : GeoOracle Cell Poly)
    (source : Poly) (mode : IncludeMode) (res : ℕ) : List Cell :=
  if mode = .intersects then
    expandHexagonsWithNeighbors G
      (polygonToHexagons G (gridCandidatePolygon G source mode) res) 1
  else polygonToHexagons G (gridCandidatePolygon G source mode) res

/-- The returned GeoJSON feature collection, reduced to the kept cell ids
and the `count` field. -/
structure FeatureCollection (Cell : Type) where
  features : List Cell
  count : ℕ
  deriving DecidableEq, Repr

/-- `build_h3_grid_feature_collection` (core.py lines 268-319). -/
def buildH3GridFeatureCollection {Cell Poly : Type} [LinearOrder Cell]
    (G : GeoOracle Cell Poly) (pts : List (Option (ℚ × ℚ))) (res : ℕ)
    (coordIsGcj : Bool) (mode : IncludeMode) (minOverlap : ℚ) :
    FeatureCollection Cell :=
  if G.isEmptyPoly (coordsToPolygon G pts) then ⟨[], 0⟩
  else if G.isEmptyPoly (gridSourcePolygon G pts coordIsGcj) then ⟨[], 0⟩
  else
    let kept := hexagonsToFeatureCells G
      (gridHexagons G (gridSourcePolygon G pts coordIsGcj) mode res)
      (gridSourcePolygon G pts coordIsGcj) mode
      (max 0 (min 1 minOverlap))
    ⟨kept, kept.length⟩

/-! ### C9: empty or degenerate boundary yields an empty grid -/

/-- C9: for every boundary input that is empty or degenerate — in particular
whenever the automatically closed ring has fewer than 4 points (fewer than 3
distinct points plus the closure), or the parsed polygon, or its converted /
normalized source, is empty — `build_h3_grid_feature_collection` returns the
empty feature collection (zero features, count 0) rather than raising.  The
only geometric fact used is that the empty polygon is empty. -/
theorem degenerate_boundary_empty_grid {Cell Poly : Type} [LinearOrder Cell]
    (G : GeoOracle Cell Poly) (pts : List (Option (ℚ × ℚ))) (res : ℕ)
    (coordIsGcj : Bool) (mode : IncludeMode) (minOverlap : ℚ)
    (hEmpty : G.isEmptyPoly G.emptyPoly = true)
    (hdeg : (ensureClosedRing (pts.filterMap id)).length < 4 ∨
      G.isEmptyPoly (coordsToPolygon G pts) = true ∨
      G.isEmptyPoly (gridSourcePolygon G pts coordIsGcj) = true) :
    buildH3GridFeatureCollection G pts res coordIsGcj mode minOverlap = ⟨[], 0⟩ := by
  rw [buildH3GridFeatureCollection]
  rcases hdeg with h | h | h
  · rw [if_pos (by rw [coordsToPolygon, if_pos h]; exact hEmpty)]
  · rw [if_pos h]
  · by_cases h1 : G.isEmptyPoly (coordsToPolygon G pts) = true
    · rw [if_pos h1]
    · rw [if_neg h1, if_pos h]

/-- A small concrete geometry model used by the witnesses: a "polygon" is a
finite set of unit atoms (as a list), a cell's polygon is its singleton
atom, covering is containment, intersecting is shared membership, and area
counts atoms. -/
def unitGeo : GeoOracle ℕ (List ℕ) where
  emptyPoly := []
  isEmptyPoly := fun p => p.isEmpty
  mkPoly := fun _ => [0, 1]
  normalizePoly := id
  convertPoly := id
  envelopePoly := id
  polyfill := fun p _ => p
  gridDisk := fun c _ => [c]
  cellPoly := fun c => some [c]
  covers := fun p q => q.all fun x => decide (x ∈ p)
  intersectsPoly := fun p q => q.any fun x => decide (x ∈ p)
  areaPoly := fun q => q.length
  interArea := fun p q => (q.filter fun x => decide (x ∈ p)).length

/-- Witness for C9: the empty boundary list yields the empty grid. -/
theorem degenerate_boundary_empty_grid_witness :
    unitGeo.isEmptyPoly unitGeo.emptyPoly = true ∧
    (ensureClosedRing (([] : List (Option (ℚ × ℚ))).filterMap id)).length < 4 ∧
    buildH3GridFeatureCollection unitGeo [] 9 false IncludeMode.intersects 0 = ⟨[], 0⟩ := by
  refine ⟨rfl, by simp [ensureClosedRing], ?_⟩
  exact degenerate_boundary_empty_grid unitGeo [] 9 false .intersects 0 rfl
    (Or.inl (by simp [ensureClosedRing]))

/-! ### C5: `inside` cell count is at most the `intersects` cell count -/

/-- Deduplicated sorting preserves membership. -/
theorem mem_sortedDedup {Cell : Type} [LinearOrder Cell] {c : Cell}
    {hexes : List Cell} : c ∈ sortedDedup hexes ↔ c ∈ hexes :=
  ((List.mergeSort_perm _ _).mem_iff).trans List.mem_dedup

/-- Deduplicated sorting has no duplicates. -/
theorem sortedDedup_nodup {Cell : Type} [LinearOrder Cell] (hexes : List Cell) :
    (sortedDedup hexes).Nodup :=
  ((List.mergeSort_perm _ _).nodup_iff).2 (List.nodup_dedup hexes)

/-- Neighbor expansion contains the original set. -/
theorem mem_expandHexagonsWithNeighbors_of_mem {Cell Poly : Type} [DecidableEq Cell]
    (G : GeoOracle Cell Poly) {c : Cell} {hexes : List Cell} (ringSize : ℕ)
    (h : c ∈ hexes) : c ∈ expandHexagonsWithNeighbors G hexes ringSize := by
  rw [expandHexagonsWithNeighbors]
  split_ifs
  · exact List.mem_dedup.2 h
  · exact List.mem_dedup.2 (List.mem_append.2 (Or.inl (List.mem_dedup.2 h)))

/-- C5: for every boundary, resolution and minimum overlap, the cell count
under the `inside` policy is at most the count under the `intersects`
policy.  The hypotheses are the geometric contract of the external
libraries on this boundary: `hseed` — every h3 polyfill cell of the source
is a polyfill cell of the (envelope-based) intersects candidate (h3 assigns
cells by center containment and the envelope contains the source); `hcov` —
a covered cell polygon also intersects the source; `harea` — a covered cell
polygon has positive area equal to its intersection area with the source. -/
theorem inside_count_le_intersects_count {Cell Poly : Type} [LinearOrder Cell]
    (G : GeoOracle Cell Poly) (pts : List (Option (ℚ × ℚ))) (res : ℕ)
    (coordIsGcj : Bool) (minOverlap : ℚ)
    (hseed : ∀ c : Cell,
      c ∈ polygonToHexagons G (gridSourcePolygon G pts coordIsGcj) res →
      c ∈ polygonToHexagons G
        (gridCandidatePolygon G (gridSourcePolygon G pts coordIsGcj)
          IncludeMode.intersects) res)
    (hcov : ∀ (c : Cell) (cp : Poly), G.cellPoly c = some cp →
      G.covers (G.normalizePoly (gridSourcePolygon G pts coordIsGcj)) cp = true →
      G.intersectsPoly (G.normalizePoly (gridSourcePolygon G pts coordIsGcj)) cp = true)
    (harea : ∀ (c : Cell) (cp : Poly), G.cellPoly c = some cp →
      G.covers (G.normalizePoly (gridSourcePolygon G pts coordIsGcj)) cp = true →
      G.interArea (G.normalizePoly (gridSourcePolygon G pts coordIsGcj)) cp
          = G.areaPoly cp ∧ 0 < G.areaPoly cp) :
    (buildH3GridFeatureCollection G pts res coordIsGcj IncludeMode.inside minOverlap).count ≤
    (buildH3GridFeatureCollection G pts res coordIsGcj IncludeMode.intersects minOverlap).count := by
  rw [buildH3GridFeatureCollection, buildH3GridFeatureCollection]
  by_cases h1 : G.isEmptyPoly (coordsToPolygon G pts) = true
  · rw [if_pos h1, if_pos h1]
  · rw [if_neg h1, if_neg h1]
    by_cases h2 : G.isEmptyPoly (gridSourcePolygon G pts coordIsGcj) = true
    · rw [if_pos h2, if_pos h2]
    · rw [if_neg h2, if_neg h2]
      show (hexagonsToFeatureCells G _ _ IncludeMode.inside _).length ≤
        (hexagonsToFeatureCells G _ _ IncludeMode.intersects _).length
      rw [hexagonsToFeatureCells, hexagonsToFeatureCells]
      by_cases h3 : G.isEmptyPoly
          (G.normalizePoly (gridSourcePolygon G pts coordIsGcj)) = true
      · rw [if_pos h3, if_pos h3]
      · rw [if_neg h3, if_neg h3]
        apply List.Subperm.length_le
        apply List.Nodup.subperm ((sortedDedup_nodup _).filter _)
        intro x hx
        obtain ⟨hxmem, hxkeep⟩ := List.mem_filter.1 hx
        cases hcp : G.cellPoly x with
        | none => rw [hcp] at hxkeep; exact absurd hxkeep (by simp)
        | some cp =>
          rw [hcp] at hxkeep
          have hcovx : G.covers (G.normalizePoly (gridSourcePolygon G pts coordIsGcj)) cp
              = true := hxkeep
          have hx2 : x ∈ sortedDedup
              (gridHexagons G (gridSourcePolygon G pts coordIsGcj)
                IncludeMode.intersects res) := by
            apply mem_sortedDedup.2
            rw [gridHexagons]
            simp only [reduceIte]
            apply mem_expandHexagonsWithNeighbors_of_mem
            apply hseed
            have hx1 := mem_sortedDedup.1 hxmem
            rw [gridHexagons] at hx1
            simpa [gridCandidatePolygon] using hx1
          apply List.mem_filter.2
          refine ⟨hx2, ?_⟩
          rw [hcp]
          show keepCell G _ IncludeMode.intersects _ cp = true
          rw [keepCell]
          obtain ⟨hia, hpos⟩ := harea x cp hcp hcovx
          rw [hcov x cp hcp hcovx]
          simp only [Bool.true_and, decide_eq_true_iff]
          rw [if_pos hpos, hia, div_self (ne_of_gt hpos)]
          exact max_le (by norm_num) (min_le_left 1 minOverlap)

/-- Witness for C5: the concrete unit-atom geometry on a three-point
boundary; both policies keep both cells, 2 ≤ 2. -/
theorem inside_count_le_intersects_count_witness :
    (buildH3GridFeatureCollection unitGeo
      [some ((0:ℚ), (0:ℚ)), some (1, 0), some (0, 1)] 9 false
      IncludeMode.inside 0).count ≤
    (buildH3GridFeatureCollection unitGeo
      [some ((0:ℚ), (0:ℚ)), some (1, 0), some (0, 1)] 9 false
      IncludeMode.intersects 0).count := by
  apply inside_count_le_intersects_count
  · intro c h
    simpa [gridCandidatePolygon, unitGeo, polygonToHexagons] using h
  · intro c cp hc hcovers
    obtain rfl : [c] = cp := by simpa [unitGeo] using hc
    have hmem : c ∈ gridSourcePolygon unitGeo
        [some ((0:ℚ), (0:ℚ)), some (1, 0), some (0, 1)] false := by
      have h0 : ([c].all fun x =>
          decide (x ∈ gridSourcePolygon unitGeo
            [some ((0:ℚ), (0:ℚ)), some (1, 0), some (0, 1)] false)) = true := hcovers
      simpa using h0
    show ([c].any fun x =>
      decide (x ∈ gridSourcePolygon unitGeo
        [some ((0:ℚ), (0:ℚ)), some (1, 0), some (0, 1)] false)) = true
    simpa using hmem
  · intro c cp hc hcovers
    obtain rfl : [c] = cp := by simpa [unitGeo] using hc
    have hmem : c ∈ gridSourcePolygon unitGeo
        [some ((0:ℚ), (0:ℚ)), some (1, 0), some (0, 1)] false := by
      have h0 : ([c].all fun x =>
          decide (x ∈ gridSourcePolygon unitGeo
            [some ((0:ℚ), (0:ℚ)), some (1, 0), some (0, 1)] false)) = true := hcovers
      simpa using h0
    constructor
    · show ((([c].filter fun x =>
        decide (x ∈ gridSourcePolygon unitGeo
          [some ((0:ℚ), (0:ℚ)), some (1, 0), some (0, 1)] false)).length : ℕ) : ℚ) =
        (([c].length : ℕ) : ℚ)
      rw [List.filter_cons, if_pos (decide_eq_true hmem)]
      simp
    · show (0:ℚ) < (([c].length : ℕ) : ℚ)
      norm_num

end GridH3

namespace HostBridge

/-! ### Backend Adapter cache (`host_bridge/runner.py`, class `ArcGISRunner`)

Cell-row payloads and global-Moran payloads are opaque data of the type
parameters `Row` and `GM`; timestamps are rationals (`time.time()`); the
cache table (a Python dict keyed by the SHA-256 fingerprint) is an
association list with the dict's insertion-order semantics. -/

/-- One stored cache entry (`_put_cached_analyze`, runner.py lines 328-340):
creation timestamp plus the cached response fields.  The `timings` dict is
carried opaquely inside `status` and is not modelled separately. -/
structure CacheEntry (Row GM : Type) where
  createdTs : ℚ
  status : String
  cells : List Row
  globalMoran : GM
  stderr : String
  stdout : String
  deriving DecidableEq, Repr

/-- The result dictionary returned by `ArcGISRunner.run` (without the
`preview_svg` rendering, which does not feed back into the cache). -/
structure RunResult (Row GM : Type) where
  status : String
  cells : List Row
  globalMoran : GM
  stderr : String
  stdout : String
  cacheHit : Bool
  deriving DecidableEq, Repr

/-- The parsed, `ok`-status output of the external ArcGIS subprocess (the
non-ok / timeout paths raise and are outside the cached-path claims). -/
structure BackendOut (Row GM : Type) where
  status : String
  cells : List Row
  globalMoran : GM
  stderr : String
  stdout : String
  deriving DecidableEq, Repr

/-- Dictionary lookup on the association-list model of the cache table. -/
def cacheLookup {Row GM : Type} (key : String) :
    List (String × CacheEntry Row GM) → Option (CacheEntry Row GM)
  | [] => none
  | p :: rest => if p.1 = key then some p.2 else cacheLookup key rest

/-- Dictionary insertion: replace in place when the key exists (Python dict
assignment keeps the original position), append otherwise. -/
def insertEntry {Row GM : Type} (cache : List (String × CacheEntry Row GM))
    (key : String) (e : CacheEntry Row GM) : List (String × CacheEntry Row GM) :=
  if (cacheLookup key cache).isSome then
    cache.map fun p => if p.1 = key then (key, e) else p
  else cache ++ [(key, e)]

/-- The TTL sweep of `_gc_analyze_cache` (runner.py lines 295-302): when the
TTL is positive, drop every entry created before `now - ttl`. -/
def ttlSweep {Row GM : Type} (ttl : ℕ) (now : ℚ)
    (cache : List (String × CacheEntry Row GM)) : List (String × CacheEntry Row GM) :=
  if 0 < ttl then cache.filter fun p => decide (¬ p.2.createdTs < now - (ttl : ℚ))
  else cache

/-- The capacity eviction of `_gc_analyze_cache` (runner.py lines 303-310):
when the table exceeds the bound, sort by creation timestamp ascending and
pop the oldest `len - max` keys. -/
def capacityEvict {Row GM : Type} (maxEntries : ℕ)
    (cache : List (String × CacheEntry Row GM)) : List (String × CacheEntry Row GM) :=
  if cache.length ≤ maxEntries then cache
  else
    cache.filter fun p => decide (p.1 ∉
      ((cache.mergeSort fun a b => decide (a.2.createdTs ≤ b.2.createdTs)).take
        (cache.length - maxEntries)).map Prod.fst)

/-- `_gc_analyze_cache` (runner.py lines 292-310): no-op on an empty table,
otherwise the TTL sweep followed by the capacity eviction. -/
def gcAnalyzeCache {Row GM : Type} (ttl maxEntries : ℕ) (now : ℚ)
    (cache : List (String × CacheEntry Row GM)) : List (String × CacheEntry Row GM) :=
  if cache.isEmpty then cache
  else capacityEvict maxEntries (ttlSweep ttl now cache)

/-- `_put_cached_analyze` (runner.py lines 328-340): no store when the TTL is
not positive; otherwise insert the entry with its creation timestamp and run
the garbage collection. -/
def putCachedAnalyze {Row GM : Type} (ttl maxEntries : ℕ) (key : String)
    (e : CacheEntry Row GM) (now : ℚ) (cache : List (String × CacheEntry Row GM)) :
    List (String × CacheEntry Row GM) :=
  if ttl = 0 then cache
  else gcAnalyzeCache ttl maxEntries now (insertEntry cache key e)

/-- `ArcGISRunner.run` (runner.py lines 342-445) on the successful paths,
returning the result, the new cache table, and whether the external backend
was invoked.  `buildKey` models `_build_analyze_cache_key` (a pure SHA-256
fingerprint of rows, knn parameter, resolved paths and script mtime);
`backend` models the parsed subprocess output of a successful call; `now` is
the `time.time()` before the lookup and `tstore` the one at the store.  On a
hit (`_get_cached_analyze`: gc, then lookup), the stored fields are returned
with `" [cache]"` appended to the status and `cache_hit = True`, and no
backend call happens. -/
def runAnalyze {Row GM : Type} (ttl maxEntries : ℕ)
    (buildKey : List Row → ℕ → String) (rows : List Row) (knn : ℕ)
    (backend : BackendOut Row GM) (gmEmpty : GM) (now tstore : ℚ)
    (cache : List (String × CacheEntry Row GM)) :
    RunResult Row GM × List (String × CacheEntry Row GM) × Bool :=
  if rows.isEmpty then
    ({ status := "no_rows", cells := [], globalMoran := gmEmpty, stderr := "",
       stdout := "", cacheHit := false }, cache, false)
  else
    match cacheLookup (buildKey rows knn) (gcAnalyzeCache ttl maxEntries now cache) with
    | some e =>
      ({ status := e.status ++ " [cache]", cells := e.cells, globalMoran := e.globalMoran,
         stderr := e.stderr, stdout := e.stdout, cacheHit := true },
        gcAnalyzeCache ttl maxEntries now cache, false)
    | none =>
      ({ status := backend.status, cells := backend.cells,
         globalMoran := backend.globalMoran, stderr := backend.stderr,
         stdout := backend.stdout, cacheHit := false },
        putCachedAnalyze ttl maxEntries (buildKey rows knn)
          { createdTs := tstore, status := backend.status, cells := backend.cells,
            globalMoran := backend.globalMoran, stderr := backend.stderr,
            stdout := backend.stdout } tstore
          (gcAnalyzeCache ttl maxEntries now cache),
        true)

/-! ### Lookup and eviction lemmas -/

/-- A successful lookup means the table is nonempty. -/
theorem cacheLookup_ne_nil {Row GM : Type} {key : String}
    {l : List (String × CacheEntry Row GM)} {e : CacheEntry Row GM}
    (h : cacheLookup key l = some e) : l.isEmpty = false := by
  cases l with
  | nil => simp [cacheLookup] at h
  | cons a rest => rfl

/-- A key absent from the table looks up to `none`. -/
theorem cacheLookup_eq_none_of_not_mem {Row GM : Type} (key : String) :
    ∀ l : List (String × CacheEntry Row GM),
      key ∉ l.map Prod.fst → cacheLookup key l = none := by
  intro l
  induction l with
  | nil => intro _; rfl
  | cons a rest ih =>
    intro h
    rw [cacheLookup, if_neg fun heq => h (by simp [← heq])]
    exact ih fun hm => h (by simp; right; simpa using hm)

/-- Filtering preserves a failed lookup. -/
theorem cacheLookup_filter_none {Row GM : Type} (key : String)
    (P : String × CacheEntry Row GM → Bool) :
    ∀ l : List (String × CacheEntry Row GM),
      cacheLookup key l = none → cacheLookup key (l.filter P) = none := by
  intro l
  induction l with
  | nil => intro _; rfl
  | cons a rest ih =>
    intro h
    rw [cacheLookup] at h
    by_cases hk : a.1 = key
    · rw [if_pos hk] at h; exact absurd h (by simp)
    · rw [if_neg hk] at h
      rw [List.filter_cons]
      by_cases hPa : P a = true
      · rw [if_pos hPa, cacheLookup, if_neg hk]
        exact ih h
      · rw [if_neg hPa]
        exact ih h

/-- Filtering preserves a successful lookup whose entry satisfies the
filter (the entry found first stays first). -/
theorem cacheLookup_filter_of_sat {Row GM : Type} (key : String)
    (e : CacheEntry Row GM) (P : String × CacheEntry Row GM → Bool) :
    ∀ l : List (String × CacheEntry Row GM),
      cacheLookup key l = some e → P (key, e) = true →
      cacheLookup key (l.filter P) = some e := by
  intro l
  induction l with
  | nil => intro h _; simp [cacheLookup] at h
  | cons a rest ih =>
    intro h hP
    rw [cacheLookup] at h
    by_cases hk : a.1 = key
    · rw [if_pos hk] at h
      obtain ⟨a1, a2⟩ := a
      simp only at hk
      subst hk
      have h2 : a2 = e := Option.some.inj h
      subst h2
      rw [List.filter_cons, if_pos hP, cacheLookup, if_pos rfl]
    · rw [if_neg hk] at h
      rw [List.filter_cons]
      by_cases hPa : P a = true
      · rw [if_pos hPa, cacheLookup, if_neg hk]
        exact ih h hP
      · rw [if_neg hPa]
        exact ih h hP

/-- With unique keys, filtering out the found entry makes the lookup fail. -/
theorem cacheLookup_filter_of_unsat {Row GM : Type} (key : String)
    (e : CacheEntry Row GM) (P : String × CacheEntry Row GM → Bool) :
    ∀ l : List (String × CacheEntry Row GM),
      (l.map Prod.fst).Nodup → cacheLookup key l = some e → P (key, e) = false →
      cacheLookup key (l.filter P) = none := by
  intro l
  induction l with
  | nil => intro _ h _; simp [cacheLookup] at h
  | cons a rest ih =>
    intro hnd h hP
    rw [List.map_cons, List.nodup_cons] at hnd
    obtain ⟨hnotin, hnd2⟩ := hnd
    rw [cacheLookup] at h
    by_cases hk : a.1 = key
    · rw [if_pos hk] at h
      obtain ⟨a1, a2⟩ := a
      simp only at hk
      subst hk
      have h2 : a2 = e := Option.some.inj h
      subst h2
      rw [List.filter_cons, if_neg (by simp [hP])]
      exact cacheLookup_filter_none _ _ rest (cacheLookup_eq_none_of_not_mem _ rest hnotin)
    · rw [if_neg hk] at h
      rw [List.filter_cons]
      by_cases hPa : P a = true
      · rw [if_pos hPa, cacheLookup, if_neg hk]
        exact ih hnd2 h hP
      · rw [if_neg hPa]
        exact ih hnd2 h hP

/-- Capacity eviction always leaves at most `maxEntries` entries. -/
theorem capacityEvict_length_le {Row GM : Type} (maxEntries : ℕ)
    (cache : List (String × CacheEntry Row GM)) :
    (capacityEvict maxEntries cache).length ≤ maxEntries := by
  rw [capacityEvict]
  split_ifs with h
  · exact h
  · push_neg at h
    have hperm : cache.Perm
        (cache.mergeSort fun a b => decide (a.2.createdTs ≤ b.2.createdTs)) :=
      (List.mergeSort_perm cache _).symm
    set ordered := cache.mergeSort fun a b => decide (a.2.createdTs ≤ b.2.createdTs)
      with hord
    set P : String × CacheEntry Row GM → Bool := fun p =>
      decide (p.1 ∉ (ordered.take (cache.length - maxEntries)).map Prod.fst) with hP
    have hlen : (cache.filter P).length = (ordered.filter P).length :=
      (hperm.filter P).length_eq
    rw [hlen, ← List.take_append_drop (cache.length - maxEntries) ordered,
      List.filter_append, List.length_append]
    have htake : ((ordered.take (cache.length - maxEntries)).filter P).length = 0 := by
      rw [List.length_eq_zero, List.filter_eq_nil_iff]
      intro p hp
      simp only [hP, decide_eq_true_iff, not_not]
      exact List.mem_map_of_mem Prod.fst hp
    have hdropf : ((ordered.drop (cache.length - maxEntries)).filter P).length ≤
        (ordered.drop (cache.length - maxEntries)).length :=
      List.length_filter_le _ _
    have hdl : (ordered.drop (cache.length - maxEntries)).length =
        cache.length - (cache.length - maxEntries) := by
      rw [List.length_drop, hperm.length_eq]
    omega

/-- Garbage collection always leaves at most `maxEntries` entries. -/
theorem gcAnalyzeCache_length_le {Row GM : Type} (ttl maxEntries : ℕ) (now : ℚ)
    (cache : List (String × CacheEntry Row GM)) :
    (gcAnalyzeCache ttl maxEntries now cache).length ≤ maxEntries := by
  rw [gcAnalyzeCache]
  split_ifs with h
  · simp [List.isEmpty_iff.1 h]
  · exact capacityEvict_length_le _ _

/-- On a nonempty row list whose fingerprint hits the (post-gc) cache, `run`
returns the stored fields with `" [cache]"` appended to the status, marks the
result a cache hit, leaves the gc'd table, and does not call the backend. -/
theorem runAnalyze_hit {Row GM : Type} (ttl maxEntries : ℕ)
    (buildKey : List Row → ℕ → String) (rows : List Row) (knn : ℕ)
    (backend : BackendOut Row GM) (gmEmpty : GM) (now tstore : ℚ)
    (cache : List (String × CacheEntry Row GM)) (e : CacheEntry Row GM)
    (hrows : rows.isEmpty = false)
    (hhit : cacheLookup (buildKey rows knn) (gcAnalyzeCache ttl maxEntries now cache)
      = some e) :
    runAnalyze ttl maxEntries buildKey rows knn backend gmEmpty now tstore cache =
      ({ status := e.status ++ " [cache]", cells := e.cells, globalMoran := e.globalMoran,
         stderr := e.stderr, stdout := e.stdout, cacheHit := true },
       gcAnalyzeCache ttl maxEntries now cache, false) := by
  rw [runAnalyze, if_neg (by simp [hrows]), hhit]

/-- On a nonempty row list whose fingerprint misses the (post-gc) cache,
`run` calls the backend, returns its fields with `cache_hit = False`, and
stores the result. -/
theorem runAnalyze_miss {Row GM : Type} (ttl maxEntries : ℕ)
    (buildKey : List Row → ℕ → String) (rows : List Row) (knn : ℕ)
    (backend : BackendOut Row GM) (gmEmpty : GM) (now tstore : ℚ)
    (cache : List (String × CacheEntry Row GM))
    (hrows : rows.isEmpty = false)
    (hmiss : cacheLookup (buildKey rows knn) (gcAnalyzeCache ttl maxEntries now cache)
      = none) :
    runAnalyze ttl maxEntries buildKey rows knn backend gmEmpty now tstore cache =
      ({ status := backend.status, cells := backend.cells,
         globalMoran := backend.globalMoran, stderr := backend.stderr,
         stdout := backend.stdout, cacheHit := false },
       putCachedAnalyze ttl maxEntries (buildKey rows knn)
         { createdTs := tstore, status := backend.status, cells := backend.cells,
           globalMoran := backend.globalMoran, stderr := backend.stderr,
           stdout := backend.stdout } tstore
         (gcAnalyzeCache ttl maxEntries now cache),
       true) := by
  rw [runAnalyze, if_neg (by simp [hrows]), hmiss]

/-- Garbage collection preserves the lookup of an unexpired entry when the
table is within its capacity bound. -/
theorem gc_preserves_fresh_hit {Row GM : Type} (ttl maxEntries : ℕ)
    (key : String) (now : ℚ) (c : List (String × CacheEntry Row GM))
    (e : CacheEntry Row GM)
    (hlen : c.length ≤ maxEntries)
    (hl : cacheLookup key c = some e)
    (hfresh : ¬ e.createdTs < now - (ttl : ℚ)) :
    cacheLookup key (gcAnalyzeCache ttl maxEntries now c) = some e := by
  rw [gcAnalyzeCache, if_neg (by simp [cacheLookup_ne_nil hl])]
  have hsweep : cacheLookup key (ttlSweep ttl now c) = some e := by
    rw [ttlSweep]
    split_ifs with h
    · exact cacheLookup_filter_of_sat key e _ c hl
        (by simp only [decide_eq_true_iff]; exact hfresh)
    · exact hl
  have hslen : (ttlSweep ttl now c).length ≤ maxEntries := by
    rw [ttlSweep]
    split_ifs
    · exact le_trans (List.length_filter_le _ _) hlen
    · exact hlen
  rw [capacityEvict, if_pos hslen]
  exact hsweep

/-- With a positive TTL and unique keys, garbage collection drops an expired
entry, so the subsequent lookup misses. -/
theorem gc_drops_expired {Row GM : Type} (ttl maxEntries : ℕ) (key : String)
    (now : ℚ) (c : List (String × CacheEntry Row GM)) (e : CacheEntry Row GM)
    (httl : 0 < ttl)
    (hnd : (c.map Prod.fst).Nodup)
    (hl : cacheLookup key c = some e)
    (hexp : e.createdTs < now - (ttl : ℚ)) :
    cacheLookup key (gcAnalyzeCache ttl maxEntries now c) = none := by
  rw [gcAnalyzeCache, if_neg (by simp [cacheLookup_ne_nil hl])]
  have hsweep : cacheLookup key (ttlSweep ttl now c) = none := by
    rw [ttlSweep, if_pos httl]
    exact cacheLookup_filter_of_unsat key e _ c hnd hl
      (by simp only [decide_eq_false_iff_not, not_not]; exact hexp)
  rw [capacityEvict]
  split_ifs
  · exact hsweep
  · exact cacheLookup_filter_none _ _ _ hsweep

/-! ### C7: cache hits return identical fields; TTL expiry forces a fresh
backend call -/

/-- C7: with a positive TTL, (a) when a call at time `t1` hits an entry `e`
of the table (lookup after gc succeeds), it returns `e`'s per-cell and
global fields as a cache hit without calling the backend, and a second
identical call at time `t2` within the entry's TTL returns byte-for-byte the
same per-cell and global fields, again as a cache hit without calling the
backend — whatever responses `backend1`/`backend2` would have produced; and
(b) once an entry's age exceeds the TTL, the next identical call invokes the
backend afresh (keys are unique in the dict model). -/
theorem run_cache_hit_and_ttl_expiry {Row GM : Type} (ttl maxEntries : ℕ)
    (buildKey : List Row → ℕ → String) (rows : List Row) (knn : ℕ)
    (backend1 backend2 backendB : BackendOut Row GM) (gmEmpty : GM)
    (cA : List (String × CacheEntry Row GM)) (e : CacheEntry Row GM)
    (t1 t2 ts1 ts2 : ℚ)
    (cB : List (String × CacheEntry Row GM)) (eB : CacheEntry Row GM) (tB tsB : ℚ)
    (hrows : rows.isEmpty = false)
    (httl : 0 < ttl)
    (hhit : cacheLookup (buildKey rows knn) (gcAnalyzeCache ttl maxEntries t1 cA)
      = some e)
    (hfresh : ¬ e.createdTs < t2 - (ttl : ℚ))
    (hndB : (cB.map Prod.fst).Nodup)
    (hlookB : cacheLookup (buildKey rows knn) cB = some eB)
    (hexpB : eB.createdTs < tB - (ttl : ℚ)) :
    ((runAnalyze ttl maxEntries buildKey rows knn backend1 gmEmpty t1 ts1 cA).1.cells
        = e.cells ∧
      (runAnalyze ttl maxEntries buildKey rows knn backend1 gmEmpty t1 ts1 cA).1.globalMoran
        = e.globalMoran ∧
      (runAnalyze ttl maxEntries buildKey rows knn backend1 gmEmpty t1 ts1 cA).1.cacheHit
        = true ∧
      (runAnalyze ttl maxEntries buildKey rows knn backend1 gmEmpty t1 ts1 cA).2.2
        = false) ∧
    ((runAnalyze ttl maxEntries buildKey rows knn backend2 gmEmpty t2 ts2
        (runAnalyze ttl maxEntries buildKey rows knn backend1 gmEmpty t1 ts1 cA).2.1).1.cells
        = (runAnalyze ttl maxEntries buildKey rows knn backend1 gmEmpty t1 ts1 cA).1.cells ∧
      (runAnalyze ttl maxEntries buildKey rows knn backend2 gmEmpty t2 ts2
        (runAnalyze ttl maxEntries buildKey rows knn backend1 gmEmpty t1 ts1 cA).2.1).1.globalMoran
        = (runAnalyze ttl maxEntries buildKey rows knn backend1 gmEmpty t1 ts1 cA).1.globalMoran ∧
      (runAnalyze ttl maxEntries buildKey rows knn backend2 gmEmpty t2 ts2
        (runAnalyze ttl maxEntries buildKey rows knn backend1 gmEmpty t1 ts1 cA).2.1).1.cacheHit
        = true ∧
      (runAnalyze ttl maxEntries buildKey rows knn backend2 gmEmpty t2 ts2
        (runAnalyze ttl maxEntries buildKey rows knn backend1 gmEmpty t1 ts1 cA).2.1).2.2
        = false) ∧
    (runAnalyze ttl maxEntries buildKey rows knn backendB gmEmpty tB tsB cB).2.2 = true := by
  have hrun1 := runAnalyze_hit ttl maxEntries buildKey rows knn backend1 gmEmpty t1 ts1
    cA e hrows hhit
  have hhit2 : cacheLookup (buildKey rows knn)
      (gcAnalyzeCache ttl maxEntries t2
        (runAnalyze ttl maxEntries buildKey rows knn backend1 gmEmpty t1 ts1 cA).2.1)
      = some e := by
    rw [hrun1]
    exact gc_preserves_fresh_hit ttl maxEntries _ t2 _ e
      (gcAnalyzeCache_length_le _ _ _ _) hhit hfresh
  have hrun2 := runAnalyze_hit ttl maxEntries buildKey rows knn backend2 gmEmpty t2 ts2
    (runAnalyze ttl maxEntries buildKey rows knn backend1 gmEmpty t1 ts1 cA).2.1 e
    hrows hhit2
  have hmissB : cacheLookup (buildKey rows knn) (gcAnalyzeCache ttl maxEntries tB cB)
      = none :=
    gc_drops_expired ttl maxEntries _ tB cB eB httl hndB hlookB hexpB
  have hrunB := runAnalyze_miss ttl maxEntries buildKey rows knn backendB gmEmpty tB tsB
    cB hrows hmissB
  rw [hrun1] at hrun2
  simp only at hrun2
  refine ⟨⟨?_, ?_, ?_, ?_⟩, ⟨?_, ?_, ?_, ?_⟩, ?_⟩ <;>
    simp [hrun1, hrun2, hrunB]

/-- Witness for C7 on concrete data: a one-entry cache holding key `"k"`
created at time 5, TTL 100; the first call at time 10 and second at time 20
hit (5 is not older than 20 − 100), while a call at time 300 sees the entry
expired (5 < 300 − 100) and invokes the backend. -/
theorem run_cache_hit_and_ttl_expiry_witness :
    ((runAnalyze 100 4 (fun _ _ => "k") [1] 5
        (⟨"ok", [7], 3, "", ""⟩ : BackendOut ℕ ℕ) 0 10 10
        [("k", ⟨5, "ok", [7], 3, "", ""⟩)]).1.cells = [7] ∧
      (runAnalyze 100 4 (fun _ _ => "k") [1] 5
        (⟨"ok", [7], 3, "", ""⟩ : BackendOut ℕ ℕ) 0 10 10
        [("k", ⟨5, "ok", [7], 3, "", ""⟩)]).2.2 = false) ∧
    (runAnalyze 100 4 (fun _ _ => "k") [1] 5
        (⟨"ok", [7], 3, "", ""⟩ : BackendOut ℕ ℕ) 0 300 300
        [("k", ⟨5, "ok", [7], 3, "", ""⟩)]).2.2 = true := by
  have happ := run_cache_hit_and_ttl_expiry 100 4 (fun _ _ => "k") [1] 5
    ⟨"ok", [7], 3, "", ""⟩ ⟨"ok", [7], 3, "", ""⟩ ⟨"ok", [7], 3, "", ""⟩ 0
    [("k", (⟨5, "ok", [7], 3, "", ""⟩ : CacheEntry ℕ ℕ))] ⟨5, "ok", [7], 3, "", ""⟩
    10 20 10 20
    [("k", (⟨5, "ok", [7], 3, "", ""⟩ : CacheEntry ℕ ℕ))] ⟨5, "ok", [7], 3, "", ""⟩
    300 300
    rfl (by norm_num)
    (by
      simp [gcAnalyzeCache, ttlSweep, capacityEvict, cacheLookup]
      norm_num
      rfl)
    (by norm_num)
    (by simp)
    (by simp [cacheLookup])
    (by norm_num)
  exact ⟨⟨happ.1.1, happ.1.2.2.2⟩, happ.2.2⟩

/-! ### C8: eviction order after a store, and the capacity bound -/

/-- C8: with a positive TTL, every store runs the garbage collection on the
just-updated table — definitionally the TTL sweep (drop entries older than
the TTL) followed by the oldest-created-first capacity eviction — and
consequently the table never holds more than `maxEntries` entries after a
store completes. -/
theorem put_evicts_in_order_and_bounded {Row GM : Type} (ttl maxEntries : ℕ)
    (key : String) (e : CacheEntry Row GM) (now : ℚ)
    (cache : List (String × CacheEntry Row GM))
    (httl : 0 < ttl) :
    putCachedAnalyze ttl maxEntries key e now cache =
      capacityEvict maxEntries (ttlSweep ttl now (insertEntry cache key e)) ∧
    (putCachedAnalyze ttl maxEntries key e now cache).length ≤ maxEntries := by
  have hne : (insertEntry cache key e).isEmpty = false := by
    rw [insertEntry]
    split_ifs with h
    · cases hc : cache with
      | nil => rw [hc] at h; simp [cacheLookup] at h
      | cons a rest => simp [hc]
    · cases cache <;> simp
  constructor
  · rw [putCachedAnalyze, if_neg (Nat.pos_iff_ne_zero.1 httl), gcAnalyzeCache,
      if_neg (by simp [hne])]
  · rw [putCachedAnalyze, if_neg (Nat.pos_iff_ne_zero.1 httl)]
    exact gcAnalyzeCache_length_le _ _ _ _

/-- Witness for C8: storing a third entry into a two-entry table with
capacity 2 evicts the oldest entry and leaves exactly 2 entries. -/
theorem put_evicts_in_order_and_bounded_witness :
    (putCachedAnalyze 100 2 "c" (⟨9, "s", [3], 4, "", ""⟩ : CacheEntry ℕ ℕ) 9
      [("a", ⟨1, "s", [1], 2, "", ""⟩), ("b", ⟨2, "s", [2], 3, "", ""⟩)] =
      capacityEvict 2 (ttlSweep 100 9 (insertEntry
        [("a", ⟨1, "s", [1], 2, "", ""⟩), ("b", ⟨2, "s", [2], 3, "", ""⟩)]
        "c" ⟨9, "s", [3], 4, "", ""⟩))) ∧
    (putCachedAnalyze 100 2 "c" (⟨9, "s", [3], 4, "", ""⟩ : CacheEntry ℕ ℕ) 9
      [("a", ⟨1, "s", [1], 2, "", ""⟩), ("b", ⟨2, "s", [2], 3, "", ""⟩)]).length ≤ 2 :=
  put_evicts_in_order_and_bounded 100 2 "c" ⟨9, "s", [3], 4, "", ""⟩ 9
    [("a", ⟨1, "s", [1], 2, "", ""⟩), ("b", ⟨2, "s", [2], 3, "", ""⟩)] (by norm_num)

end HostBridge
